import Mathlib

/-!
Shallow embedding of `icevision/metrics/confusion_matrix/confusion_matrix.py`
(class `SimpleConfusionMatrix`), together with spec-modelled versions of its
collaborators from `confusion_matrix_utils` (`match_records`,
`get_best_score_item`) and of the external stats engine, which are not part
of the sources at hand.

Conventions of the embedding:
- Python floats (scores, IoU values, metric values) are modelled as `ℚ`.
- Python exceptions are modelled by the `Except PyErr` monad: a raised
  exception is an `Except.error`.
- The mutable `SimpleConfusionMatrix` object is modelled as an explicit
  state value threaded through `accumulate` and `finalize`.
-/

namespace IceVision

/-- Axis-aligned bounding box, coordinates modelled as rationals. -/
structure BBox where
  xmin : ℚ
  ymin : ℚ
  xmax : ℚ
  ymax : ℚ
deriving DecidableEq

/-- Modelled from the spec: IoU (intersection-over-union) of two bounding
boxes, the overlap ratio between the boxes (glossary of the spec).
Intersection area over union area; `0` when the union has measure zero. -/
def iou (a b : BBox) : ℚ :=
  let interW := max 0 (min a.xmax b.xmax - max a.xmin b.xmin)
  let interH := max 0 (min a.ymax b.ymax - max a.ymin b.ymin)
  let inter := interW * interH
  let areaA := (a.xmax - a.xmin) * (a.ymax - a.ymin)
  let areaB := (b.xmax - b.xmin) * (b.ymax - b.ymin)
  let union := areaA + areaB - inter
  if union = 0 then 0 else inter / union

/-- ClassMap: bijection between class names and small integer ids.
`ids` is the ordered list of id values of `_class2id`; `id2class` the
ordered class names (`_id2class`). -/
structure ClassMap where
  ids : List ℕ
  id2class : List String
deriving DecidableEq

/-- The `detection` component of a record: boxes, label ids, named labels
and (for prediction records) confidence scores, plus the class map. -/
structure Detection where
  bboxes : List BBox
  label_ids : List ℕ
  labels : List String
  scores : List ℚ
  class_map : ClassMap
deriving DecidableEq

/-- A ground-truth or prediction record for one image. -/
structure Record where
  detection : Detection
deriving DecidableEq

/-- Pairs one ground-truth record with one predicted record for an image. -/
structure Prediction where
  ground_truth : Record
  pred : Record
deriving DecidableEq

/-- A ground-truth item inside a `Match`: one ground-truth box and label. -/
structure TargetItem where
  target_bbox : BBox
  target_label_id : ℕ
deriving DecidableEq

/-- A candidate prediction item inside a `Match`: box, label id, score. -/
structure PredItem where
  predicted_bbox : BBox
  predicted_label_id : ℕ
  score : ℚ
deriving DecidableEq

/-- The ground-truth items of a record: boxes zipped with label ids. -/
def targetItems (r : Record) : List TargetItem :=
  (r.detection.bboxes.zip r.detection.label_ids).map
    (fun q => { target_bbox := q.1, target_label_id := q.2 })

/-- The prediction items of a record: boxes, label ids and scores zipped. -/
def predItems (r : Record) : List PredItem :=
  ((r.detection.bboxes.zip r.detection.label_ids).zip r.detection.scores).map
    (fun q => { predicted_bbox := q.1.1, predicted_label_id := q.1.2, score := q.2 })

/-- Modelled from the spec: `match_records` (defined in
`confusion_matrix_utils`, not among the sources at hand).  Given a
ground-truth record, a prediction record and an IoU threshold τ, produce
one Match entry per ground-truth box, carrying the ground-truth item and
the list of candidate prediction items whose IoU with that ground-truth
box is ≥ τ (inclusive boundary). -/
def match_records (target prediction : Record) (iou_threshold : ℚ) :
    List (TargetItem × List PredItem) :=
  (targetItems target).map (fun t =>
    (t, (predItems prediction).filter
      (fun p => iou_threshold ≤ iou t.target_bbox p.predicted_bbox)))

/-- One step of the best-score selection: keep the current best unless the
next item's score is strictly higher (so equal scores keep the earlier
item). -/
def bestStep (best y : PredItem) : PredItem :=
  if best.score < y.score then y else best

/-- Modelled from the spec: `get_best_score_item` (defined in
`confusion_matrix_utils`, not among the sources at hand).  Among a Match
candidate list, choose the item with the highest confidence score, ties
broken by first-seen order (stable); a ground-truth box with an empty
candidate list contributes no pair, modelled as `none`.  A pure
function: no side effects. -/
def get_best_score_item (prediction_items : List PredItem) : Option PredItem :=
  match prediction_items with
  | [] => none
  | x :: xs => some (xs.foldl bestStep x)

/-- The `MatchingPolicy` enum, plus `invalid`: Python does not enforce the
annotation, so the policy slot may hold any value; `invalid` stands for a
value outside the enum and drives the final `else` branch of the
selection dispatch. -/
inductive MatchingPolicy where
  | BEST_SCORE
  | BEST_IOU
  | invalid (v : String)
deriving DecidableEq

/-- Python exceptions raised by the modelled methods. -/
inductive PyErr where
  | assertionError
  | notImplementedError
  | runtimeError (msg : String)
  | attributeError
  | indexError
  | valueError
deriving DecidableEq

/-- The message of the `RuntimeError` raised for an unrecognized policy:
`f"policy must be one of \x7blist(MatchingPolicy)\x7d"`. -/
def validPolicyMsg : String :=
  "policy must be one of [MatchingPolicy.BEST_SCORE, MatchingPolicy.BEST_IOU]"

/-- The per-match selection loop of `accumulate` (lines 57-71 of the
source): for each Match, dispatch on the policy; under `BEST_SCORE` reduce
the Match with `get_best_score_item` and append the
(target label id, predicted label id) pair; under `BEST_IOU` raise
`NotImplementedError`; under any other policy value raise `RuntimeError`. -/
def selectPairs (policy : MatchingPolicy) :
    List (TargetItem × List PredItem) → Except PyErr (List ℕ × List ℕ)
  | [] => .ok ([], [])
  | (target_item, prediction_items) :: rest =>
    match policy with
    | .BEST_SCORE =>
      match get_best_score_item prediction_items with
      | none => selectPairs policy rest
      | some predicted_item =>
        match selectPairs policy rest with
        | .error e => .error e
        | .ok (tls, pls) =>
          .ok (target_item.target_label_id :: tls,
               predicted_item.predicted_label_id :: pls)
    | .BEST_IOU => .error .notImplementedError
    | .invalid _ => .error (.runtimeError validPolicyMsg)

/-- The state of a `SimpleConfusionMatrix` instance. -/
structure SimpleConfusionMatrix where
  print_summary : Bool
  target_labels : List ℕ
  predicted_labels : List ℕ
  iou_threshold : ℚ
  policy : MatchingPolicy
  class_map : Option ClassMap
  confusion_matrix : Option (List (List ℕ))
deriving DecidableEq

/-- `SimpleConfusionMatrix.__init__`. -/
def SimpleConfusionMatrix.init (iou_threshold : ℚ) (policy : MatchingPolicy)
    (print_summary : Bool) : SimpleConfusionMatrix :=
  { print_summary := print_summary
    target_labels := []
    predicted_labels := []
    iou_threshold := iou_threshold
    policy := policy
    class_map := none
    confusion_matrix := none }

/-- `SimpleConfusionMatrix._reset`: empties both label sequences. -/
def SimpleConfusionMatrix.reset (s : SimpleConfusionMatrix) : SimpleConfusionMatrix :=
  { s with target_labels := [], predicted_labels := [] }

/-- The false-positive-only override of `accumulate` (lines 72-78 of the
source): when the prediction record has labels but the ground-truth record
has none, replace the per-image pair of lists by one background label `0`
per predicted label on the target side and the full predicted label-id
list on the prediction side; otherwise keep the selector's pairs. -/
def imagePair (target_record prediction_record : Record) (tls pls : List ℕ) :
    List ℕ × List ℕ :=
  if 0 < prediction_record.detection.labels.length ∧
      target_record.detection.labels.length = 0 then
    (prediction_record.detection.labels.map (fun _ => 0),
     prediction_record.detection.label_ids)
  else (tls, pls)

/-- The body of `accumulate`'s loop for a single `Prediction`: resolve the
class map, run the matcher, run the per-match selection, apply the
false-positive-only override when the ground truth has no labels but the
prediction does, check the `assert`, and extend the accumulator
sequences. -/
def accumulateOne (s : SimpleConfusionMatrix) (pred : Prediction) :
    Except PyErr SimpleConfusionMatrix :=
  let target_record := pred.ground_truth
  let prediction_record := pred.pred
  let s1 := { s with class_map := some target_record.detection.class_map }
  let matchList := match_records target_record prediction_record s1.iou_threshold
  match selectPairs s1.policy matchList with
  | .error e => .error e
  | .ok (tls, pls) =>
    let pair := imagePair target_record prediction_record tls pls
    if pair.2.length = pair.1.length then
      .ok { s1 with
              target_labels := s1.target_labels ++ pair.1
              predicted_labels := s1.predicted_labels ++ pair.2 }
    else .error .assertionError

/-- `SimpleConfusionMatrix.accumulate`: process each prediction in order;
a raised exception aborts the run. -/
def accumulate (s : SimpleConfusionMatrix) :
    List Prediction → Except PyErr SimpleConfusionMatrix
  | [] => .ok s
  | p :: ps =>
    match accumulateOne s p with
    | .error e => .error e
    | .ok s1 => accumulate s1 ps

/-- Modelled from the spec: a cell of the external stats engine's confusion
matrix — the number of positions where the true label is `t` and the
predicted label is `p`. -/
def pairCount (y_true y_pred : List ℕ) (t p : ℕ) : ℕ :=
  ((y_true.zip y_pred).filter (fun q => decide (q.1 = t ∧ q.2 = p))).length

/-- Modelled from the spec: the external stats engine's confusion matrix,
square over the given ordered label list. -/
def confusionMatrix (y_true y_pred : List ℕ) (labels : List ℕ) : List (List ℕ) :=
  labels.map (fun t => labels.map (fun p => pairCount y_true y_pred t p))

/-- Number of predictions of class `c` (true positives + false positives). -/
def predictedCount (y_pred : List ℕ) (c : ℕ) : ℕ :=
  (y_pred.filter (fun y => decide (y = c))).length

/-- Number of ground-truth occurrences of class `c`. -/
def actualCount (y_true : List ℕ) (c : ℕ) : ℕ :=
  (y_true.filter (fun y => decide (y = c))).length

/-- Modelled from the spec: per-class precision of the external stats
engine; `0` when class `c` is never predicted (the engine's zero-division
behaviour). -/
def precisionOf (y_true y_pred : List ℕ) (c : ℕ) : ℚ :=
  if predictedCount y_pred c = 0 then 0
  else (pairCount y_true y_pred c c : ℚ) / (predictedCount y_pred c : ℚ)

/-- Modelled from the spec: per-class recall of the external stats engine;
`0` when class `c` never occurs in the ground truth. -/
def recallOf (y_true y_pred : List ℕ) (c : ℕ) : ℚ :=
  if actualCount y_true c = 0 then 0
  else (pairCount y_true y_pred c c : ℚ) / (actualCount y_true c : ℚ)

/-- Modelled from the spec: per-class F1 of the external stats engine,
harmonic mean of precision and recall, `0` when both vanish. -/
def f1Of (y_true y_pred : List ℕ) (c : ℕ) : ℚ :=
  let p := precisionOf y_true y_pred c
  let r := recallOf y_true y_pred c
  if p + r = 0 then 0 else 2 * p * r / (p + r)

/-- Round to the nearest integer, halves to the even integer (the rounding
of `np.round`). -/
def roundHalfEven (x : ℚ) : ℤ :=
  let fl : ℤ := ⌊x⌋
  if x - fl < 1 / 2 then fl
  else if 1 / 2 < x - fl then fl + 1
  else if fl % 2 = 0 then fl else fl + 1

/-- `np.round(x, 3)`: round to 3 decimal digits. -/
def np_round3 (x : ℚ) : ℚ := (roundHalfEven (x * 1000) : ℚ) / 1000

/-- `SimpleConfusionMatrix.finalize`: check the length assert, read the
ordered label ids off the class map (an `AttributeError` when no
accumulate ever resolved one), compute the confusion matrix into the
state, compute per-class precision/recall/F1, keep only the entries at
positions 1 and 2 of the label list (an `IndexError` when it is shorter),
round them to 3 digits, reset both label sequences and return the three
two-entry tables. -/
def finalize (s : SimpleConfusionMatrix) :
    Except PyErr (List (List (String × ℚ)) × SimpleConfusionMatrix) :=
  if s.target_labels.length = s.predicted_labels.length then
    match s.class_map with
    | none => .error .attributeError
    | some cm =>
      let label_ids := cm.ids
      let M := confusionMatrix s.target_labels s.predicted_labels label_ids
      if h2 : 2 < label_ids.length then
        let c1 := label_ids.get ⟨1, by omega⟩
        let c2 := label_ids.get ⟨2, h2⟩
        let p := [("Infra P", np_round3 (precisionOf s.target_labels s.predicted_labels c1)),
                  ("Vessel P", np_round3 (precisionOf s.target_labels s.predicted_labels c2))]
        let r := [("Infra Recall", np_round3 (recallOf s.target_labels s.predicted_labels c1)),
                  ("Vessel Recall", np_round3 (recallOf s.target_labels s.predicted_labels c2))]
        let f1 := [("Infra f1", np_round3 (f1Of s.target_labels s.predicted_labels c1)),
                   ("Vessel f1", np_round3 (f1Of s.target_labels s.predicted_labels c2))]
        .ok ([p, r, f1],
          { s with
              confusion_matrix := some M
              target_labels := []
              predicted_labels := [] })
      else .error .indexError
  else .error .assertionError

/-- The result `finalize` computes from empty label sequences: every
metric is zero. -/
def zeroResult : List (List (String × ℚ)) :=
  [[("Infra P", 0), ("Vessel P", 0)],
   [("Infra Recall", 0), ("Vessel Recall", 0)],
   [("Infra f1", 0), ("Vessel f1", 0)]]

/-- Python truthiness of an optional string: `None` and the empty string
are falsy. -/
def pyTruthy : Option String → Bool
  | none => false
  | some st => st ≠ ""

/-- The argument-handling fragment of `SimpleConfusionMatrix.plot` (lines
121-126 of the source): validate `normalize`, then compute the
`values_format` that is actually passed on to the display library. -/
def plotValuesFormat (normalize : Option String) (values_format : Option String) :
    Except PyErr (Option String) :=
  if ¬(normalize = some "true" ∨ normalize = some "pred" ∨
        normalize = some "all" ∨ normalize = none) then
    .error .valueError
  else if values_format ≠ none then
    .ok (some (if pyTruthy normalize then ".2f" else "d"))
  else .ok values_format

/-! Concrete fixtures used by the witnesses. -/

/-- A three-class map: background 0, Infra 1, Vessel 2. -/
def cmW : ClassMap :=
  { ids := [0, 1, 2], id2class := ["background", "Infra", "Vessel"] }

/-- A ground-truth record with one unit box of class 1. -/
def gtRecW : Record :=
  { detection :=
      { bboxes := [⟨0, 0, 1, 1⟩], label_ids := [1], labels := ["Infra"],
        scores := [], class_map := cmW } }

/-- A prediction record with one unit box of class 1, score 9/10. -/
def prRecW : Record :=
  { detection :=
      { bboxes := [⟨0, 0, 1, 1⟩], label_ids := [1], labels := ["Infra"],
        scores := [9 / 10], class_map := cmW } }

/-- A one-image prediction: the ground truth and the prediction coincide. -/
def predW : Prediction := { ground_truth := gtRecW, pred := prRecW }

/-- An empty ground-truth record (no boxes, no labels). -/
def gtEmptyW : Record :=
  { detection :=
      { bboxes := [], label_ids := [], labels := [], scores := [], class_map := cmW } }

/-- A prediction record carrying labels [3, 5, 2] (used for the
false-positive-only case). -/
def prFPW : Record :=
  { detection :=
      { bboxes := [], label_ids := [3, 5, 2], labels := ["a", "b", "c"],
        scores := [], class_map := cmW } }

/-- A false-positive-only image: empty ground truth, three predictions. -/
def predFPW : Prediction := { ground_truth := gtEmptyW, pred := prFPW }

/-- A fresh accumulator with the default threshold and policy. -/
def sW : SimpleConfusionMatrix := SimpleConfusionMatrix.init (1 / 2) .BEST_SCORE false

/-- A fresh accumulator configured with the `BEST_IOU` policy. -/
def sIOUW : SimpleConfusionMatrix := SimpleConfusionMatrix.init (1 / 2) .BEST_IOU false

/-- A fresh accumulator whose policy slot holds a non-enum value. -/
def sBadW : SimpleConfusionMatrix :=
  SimpleConfusionMatrix.init (1 / 2) (.invalid "nonsense") false

/-- A reset accumulator whose class map has already been resolved. -/
def sResetW : SimpleConfusionMatrix :=
  { print_summary := false
    target_labels := []
    predicted_labels := []
    iou_threshold := 1 / 2
    policy := .BEST_SCORE
    class_map := some cmW
    confusion_matrix := none }

/-- The state `finalize` leaves behind when run on `sResetW`. -/
def sAfterFinW : SimpleConfusionMatrix :=
  { sResetW with confusion_matrix := some (confusionMatrix [] [] cmW.ids) }

/-- Two candidates sharing the top score (tie on 1/2). -/
def itemsW : List PredItem :=
  [{ predicted_bbox := ⟨0, 0, 1, 1⟩, predicted_label_id := 3, score := 1 / 2 },
   { predicted_bbox := ⟨0, 0, 1, 1⟩, predicted_label_id := 7, score := 1 / 2 }]

/-- The state `accumulate` produces from `sW` on the false-positive-only
image `predFPW`. -/
def resC1W : SimpleConfusionMatrix :=
  { print_summary := false
    target_labels := [0, 0, 0]
    predicted_labels := [3, 5, 2]
    iou_threshold := 1 / 2
    policy := .BEST_SCORE
    class_map := some cmW
    confusion_matrix := none }

/-! Helper lemmas. -/

theorem selectPairs_lengths (policy : MatchingPolicy) :
    ∀ (ms : List (TargetItem × List PredItem)) {tls pls : List ℕ},
      selectPairs policy ms = .ok (tls, pls) → tls.length = pls.length := by
  intro ms
  induction ms with
  | nil => intro tls pls h; simp only [selectPairs] at h; cases h; rfl
  | cons m rest ih =>
    intro tls pls h
    obtain ⟨target_item, prediction_items⟩ := m
    cases policy with
    | BEST_SCORE =>
      simp only [selectPairs] at h
      cases hbest : get_best_score_item prediction_items with
      | none => rw [hbest] at h; exact ih h
      | some predicted_item =>
        rw [hbest] at h
        cases hrec : selectPairs .BEST_SCORE rest with
        | error e => rw [hrec] at h; exact absurd h (by simp)
        | ok q =>
          obtain ⟨tls0, pls0⟩ := q
          rw [hrec] at h
          cases h
          simpa using ih hrec
    | BEST_IOU => simp only [selectPairs] at h; exact absurd h (by simp)
    | invalid v => simp only [selectPairs] at h; exact absurd h (by simp)

theorem selectPairs_best_score_ok :
    ∀ (ms : List (TargetItem × List PredItem)),
      ∃ tls pls, selectPairs .BEST_SCORE ms = .ok (tls, pls) := by
  intro ms
  induction ms with
  | nil => exact ⟨[], [], rfl⟩
  | cons m rest ih =>
    obtain ⟨target_item, prediction_items⟩ := m
    obtain ⟨tls, pls, hrec⟩ := ih
    cases hbest : get_best_score_item prediction_items with
    | none => exact ⟨tls, pls, by simp only [selectPairs, hbest, hrec]⟩
    | some predicted_item =>
      exact ⟨target_item.target_label_id :: tls,
             predicted_item.predicted_label_id :: pls,
             by simp only [selectPairs, hbest, hrec]⟩

theorem accumulateOne_len {s : SimpleConfusionMatrix} {p : Prediction}
    {s' : SimpleConfusionMatrix} (h : accumulateOne s p = .ok s')
    (hlen : s.target_labels.length = s.predicted_labels.length) :
    s'.target_labels.length = s'.predicted_labels.length := by
  simp only [accumulateOne] at h
  cases hsel : selectPairs s.policy
      (match_records p.ground_truth p.pred s.iou_threshold) with
  | error e => simp only [hsel] at h; exact Except.noConfusion h
  | ok q =>
    obtain ⟨tls, pls⟩ := q
    simp only [hsel] at h
    set pr := imagePair p.ground_truth p.pred tls pls with hpr
    by_cases hguard : pr.2.length = pr.1.length
    · rw [if_pos hguard] at h
      cases h
      simp only [List.length_append]
      omega
    · rw [if_neg hguard] at h
      exact Except.noConfusion h

/-- C1: after accumulate processes each image, the accumulator sequences
`target_labels` and `predicted_labels` have equal length; this holds for
every sequence of accumulate calls (any start state satisfying the
invariant), and a violation cannot be silently swallowed: the only
successful outcomes of `accumulate` preserve the invariant, every other
run of the per-image `assert` is the fatal `assertionError`. -/
theorem C1_accumulate_preserves_equal_lengths
    (s : SimpleConfusionMatrix) (preds : List Prediction) (s' : SimpleConfusionMatrix)
    (hlen : s.target_labels.length = s.predicted_labels.length)
    (h : accumulate s preds = .ok s') :
    s'.target_labels.length = s'.predicted_labels.length := by
  induction preds generalizing s with
  | nil => simp only [accumulate] at h; cases h; exact hlen
  | cons p ps ih =>
    simp only [accumulate] at h
    cases hone : accumulateOne s p with
    | error e => simp only [hone] at h; exact Except.noConfusion h
    | ok s1 =>
      simp only [hone] at h
      exact ih s1 (accumulateOne_len hone hlen) h

/-- Witness for C1 at a concrete run: a fresh accumulator processing one
false-positive-only image ends with two sequences of length 3. -/
theorem C1_witness :
    resC1W.target_labels.length = resC1W.predicted_labels.length :=
  C1_accumulate_preserves_equal_lengths sW [predFPW] resC1W rfl rfl

/-- C2: for a Prediction whose ground-truth record has zero labels and
whose prediction record has N > 0 labels, accumulate extends
`target_labels` by N copies of the background class id 0 and
`predicted_labels` by exactly the predicted label ids in order; the
override replaces whatever pairs the matcher/selector step computed for
the image. -/
theorem C2_false_positive_override
    (s : SimpleConfusionMatrix) (pred : Prediction)
    (hpol : s.policy = .BEST_SCORE)
    (hgt : pred.ground_truth.detection.labels.length = 0)
    (hpr : 0 < pred.pred.detection.labels.length)
    (hwf : pred.pred.detection.labels.length = pred.pred.detection.label_ids.length) :
    accumulate s [pred] = .ok
      { s with
          class_map := some pred.ground_truth.detection.class_map
          target_labels := s.target_labels ++
            List.replicate pred.pred.detection.labels.length 0
          predicted_labels := s.predicted_labels ++ pred.pred.detection.label_ids } := by
  obtain ⟨tls, pls, hsel⟩ := selectPairs_best_score_ok
    (match_records pred.ground_truth pred.pred s.iou_threshold)
  have hip : imagePair pred.ground_truth pred.pred tls pls =
      (List.replicate pred.pred.detection.labels.length 0,
       pred.pred.detection.label_ids) := by
    simp only [imagePair]
    rw [if_pos (And.intro hpr hgt), List.map_const']
  simp only [accumulate, accumulateOne, hpol, hsel]
  rw [hip, if_pos (by simp [hwf])]

/-- Witness for C2: ground truth with zero boxes plus predictions with
labels [3, 5, 2] extends the sequences by [0, 0, 0] and [3, 5, 2]. -/
theorem C2_witness :
    accumulate sW [predFPW] = .ok
      { print_summary := false
        target_labels := [0, 0, 0]
        predicted_labels := [3, 5, 2]
        iou_threshold := 1 / 2
        policy := .BEST_SCORE
        class_map := some cmW
        confusion_matrix := none } :=
  C2_false_positive_override sW predFPW rfl rfl (by decide) rfl

/-- C3: with the `BEST_IOU` policy, as soon as a Match (in particular one
with candidates) must be reduced, accumulate fails with the explicit
not-implemented error; there is no silent fallback to another policy. -/
theorem C3_best_iou_not_implemented
    (s : SimpleConfusionMatrix) (pred : Prediction)
    (hpol : s.policy = .BEST_IOU)
    (hmatch : ∃ m ∈ match_records pred.ground_truth pred.pred s.iou_threshold,
        m.2 ≠ []) :
    accumulate s [pred] = .error .notImplementedError := by
  obtain ⟨m, hm, -⟩ := hmatch
  cases hml : match_records pred.ground_truth pred.pred s.iou_threshold with
  | nil => rw [hml] at hm; exact absurd hm (List.not_mem_nil m)
  | cons m0 rest =>
    obtain ⟨t0, items0⟩ := m0
    simp only [accumulate, accumulateOne, hpol, hml, selectPairs]

/-- Witness for C3: on overlapping unit boxes the `BEST_IOU` accumulator
fails with the not-implemented error. -/
theorem C3_witness : accumulate sIOUW [predW] = .error .notImplementedError := by
  apply C3_best_iou_not_implemented sIOUW predW rfl
  have hiou : iou ⟨0, 0, 1, 1⟩ ⟨0, 0, 1, 1⟩ = 1 := by
    norm_num [iou, min_def, max_def]
  refine ⟨(⟨⟨0, 0, 1, 1⟩, 1⟩, [⟨⟨0, 0, 1, 1⟩, 1, 9 / 10⟩]), ?_, by simp⟩
  simp only [sIOUW, SimpleConfusionMatrix.init, predW, match_records, targetItems,
    predItems, gtRecW, prRecW, List.zip, List.zipWith, List.map, List.mem_singleton]
  rw [List.filter]
  simp only [hiou]
  norm_num

/-- C4: with a policy value outside the enum, accumulate fails at
selection time with a `RuntimeError` whose message names the valid policy
set. -/
theorem C4_invalid_policy_runtime_error
    (s : SimpleConfusionMatrix) (pred : Prediction) (v : String)
    (hpol : s.policy = .invalid v)
    (hmatch : match_records pred.ground_truth pred.pred s.iou_threshold ≠ []) :
    accumulate s [pred] = .error (.runtimeError validPolicyMsg) ∧
      validPolicyMsg =
        "policy must be one of [MatchingPolicy.BEST_SCORE, MatchingPolicy.BEST_IOU]" := by
  refine ⟨?_, rfl⟩
  cases hml : match_records pred.ground_truth pred.pred s.iou_threshold with
  | nil => exact absurd hml hmatch
  | cons m0 rest =>
    obtain ⟨t0, items0⟩ := m0
    simp only [accumulate, accumulateOne, hpol, hml, selectPairs]

/-- Witness for C4: a policy slot holding a non-enum value makes
accumulate fail with the configuration error. -/
theorem C4_witness :
    accumulate sBadW [predW] = .error (.runtimeError validPolicyMsg) ∧
      validPolicyMsg =
        "policy must be one of [MatchingPolicy.BEST_SCORE, MatchingPolicy.BEST_IOU]" :=
  C4_invalid_policy_runtime_error sBadW predW "nonsense" rfl
    (by simp [match_records, targetItems, predW, gtRecW])

theorem precisionOf_nil (c : ℕ) : precisionOf [] [] c = 0 := rfl

theorem recallOf_nil (c : ℕ) : recallOf [] [] c = 0 := rfl

theorem f1Of_nil (c : ℕ) : f1Of [] [] c = 0 := by
  simp [f1Of, precisionOf_nil, recallOf_nil]

theorem np_round3_zero : np_round3 0 = 0 := by
  norm_num [np_round3, roundHalfEven]

theorem finalize_empty (s : SimpleConfusionMatrix) (cm : ClassMap)
    (hcm : s.class_map = some cm) (h2 : 2 < cm.ids.length)
    (ht : s.target_labels = []) (hp : s.predicted_labels = []) :
    finalize s = .ok (zeroResult,
      { s with
          confusion_matrix := some (confusionMatrix [] [] cm.ids)
          target_labels := []
          predicted_labels := [] }) := by
  simp only [finalize, hcm, ht, hp]
  rw [if_pos trivial, dif_pos h2]
  simp [zeroResult, precisionOf_nil, recallOf_nil, f1Of_nil, np_round3_zero]

/-- C5: finalize resets both label sequences, so after
accumulate(P); finalize() the state has empty sequences, a further
accumulate of the empty collection leaves it unchanged, and a second
finalize computes its result from empty label sequences (all metrics
zero) with nothing carried over. -/
theorem C5_finalize_resets (s : SimpleConfusionMatrix) (P : List Prediction)
    (s₁ : SimpleConfusionMatrix) (res₁ : List (List (String × ℚ)))
    (s₂ : SimpleConfusionMatrix)
    (hacc : accumulate s P = .ok s₁)
    (hfin : finalize s₁ = .ok (res₁, s₂)) :
    s₂.target_labels = [] ∧ s₂.predicted_labels = [] ∧
      accumulate s₂ [] = .ok s₂ ∧
      ∃ res₂ s₃, finalize s₂ = .ok (res₂, s₃) ∧ res₂ = zeroResult := by
  simp only [finalize] at hfin
  by_cases hlen : s₁.target_labels.length = s₁.predicted_labels.length
  · rw [if_pos hlen] at hfin
    cases hcm : s₁.class_map with
    | none => simp only [hcm] at hfin; exact Except.noConfusion hfin
    | some cm =>
      simp only [hcm] at hfin
      by_cases h2 : 2 < cm.ids.length
      · rw [dif_pos h2] at hfin
        cases hfin
        exact ⟨rfl, rfl, rfl, zeroResult, _,
          finalize_empty
            { print_summary := s₁.print_summary
              target_labels := []
              predicted_labels := []
              iou_threshold := s₁.iou_threshold
              policy := s₁.policy
              class_map := some cm
              confusion_matrix :=
                some (confusionMatrix s₁.target_labels s₁.predicted_labels cm.ids) }
            cm rfl h2 rfl rfl, rfl⟩
      · rw [dif_neg h2] at hfin; exact Except.noConfusion hfin
  · rw [if_neg hlen] at hfin; exact Except.noConfusion hfin

/-- Witness for C5 at a concrete reset state with a resolved class map. -/
theorem C5_witness :
    sAfterFinW.target_labels = [] ∧ sAfterFinW.predicted_labels = [] ∧
      accumulate sAfterFinW [] = .ok sAfterFinW ∧
      ∃ res₂ s₃, finalize sAfterFinW = .ok (res₂, s₃) ∧ res₂ = zeroResult :=
  C5_finalize_resets sResetW [] sResetW zeroResult sAfterFinW rfl
    (finalize_empty sResetW cmW rfl (by decide) rfl rfl)

/-- C6: finalize returns precision, recall and F1 exactly for class ids 1
and 2 (six rounded values, nothing else), while the raw full-vocabulary
confusion matrix is stored in the accumulator state, not in the returned
per-class metrics. -/
theorem C6_finalize_result (s : SimpleConfusionMatrix) (cm : ClassMap)
    (hcm : s.class_map = some cm)
    (hlen : s.target_labels.length = s.predicted_labels.length)
    (h1 : cm.ids.get? 1 = some 1) (h2 : cm.ids.get? 2 = some 2) :
    finalize s = .ok (
      [[("Infra P", np_round3 (precisionOf s.target_labels s.predicted_labels 1)),
        ("Vessel P", np_round3 (precisionOf s.target_labels s.predicted_labels 2))],
       [("Infra Recall", np_round3 (recallOf s.target_labels s.predicted_labels 1)),
        ("Vessel Recall", np_round3 (recallOf s.target_labels s.predicted_labels 2))],
       [("Infra f1", np_round3 (f1Of s.target_labels s.predicted_labels 1)),
        ("Vessel f1", np_round3 (f1Of s.target_labels s.predicted_labels 2))]],
      { s with
          confusion_matrix :=
            some (confusionMatrix s.target_labels s.predicted_labels cm.ids)
          target_labels := []
          predicted_labels := [] }) := by
  obtain ⟨hp1, e1⟩ := List.get?_eq_some.mp h1
  obtain ⟨hp2, e2⟩ := List.get?_eq_some.mp h2
  simp only [finalize, hcm]
  rw [if_pos hlen, dif_pos hp2, e1, e2]

/-- Witness for C6 at a concrete accumulated state. -/
theorem C6_witness :
    finalize resC1W = .ok (
      [[("Infra P", np_round3 (precisionOf resC1W.target_labels resC1W.predicted_labels 1)),
        ("Vessel P", np_round3 (precisionOf resC1W.target_labels resC1W.predicted_labels 2))],
       [("Infra Recall", np_round3 (recallOf resC1W.target_labels resC1W.predicted_labels 1)),
        ("Vessel Recall", np_round3 (recallOf resC1W.target_labels resC1W.predicted_labels 2))],
       [("Infra f1", np_round3 (f1Of resC1W.target_labels resC1W.predicted_labels 1)),
        ("Vessel f1", np_round3 (f1Of resC1W.target_labels resC1W.predicted_labels 2))]],
      { resC1W with
          confusion_matrix :=
            some (confusionMatrix resC1W.target_labels resC1W.predicted_labels cmW.ids)
          target_labels := []
          predicted_labels := [] }) :=
  C6_finalize_result resC1W cmW rfl rfl (by decide) (by decide)

/-- C9, as stated, is false on the code: on a freshly constructed
accumulator no class map has been resolved (`class_map` is `None`), so the
very first finalize fails with an `AttributeError` instead of returning
empty statistics. -/
theorem C9_counterexample :
    finalize (SimpleConfusionMatrix.init (1 / 2) .BEST_SCORE false) =
      .error .attributeError := rfl

/-- C9 amended: once the class map has been resolved (at least one
accumulate ran, with at least three classes), finalize twice without any
intervening accumulate from a reset state succeeds and returns zero
statistics both times. -/
theorem C9_amended_finalize_twice (s : SimpleConfusionMatrix) (cm : ClassMap)
    (hcm : s.class_map = some cm) (h2 : 2 < cm.ids.length)
    (ht : s.target_labels = []) (hp : s.predicted_labels = []) :
    ∃ s₁ s₂, finalize s = .ok (zeroResult, s₁) ∧
      finalize s₁ = .ok (zeroResult, s₂) := by
  exact ⟨_, _, finalize_empty s cm hcm h2 ht hp,
    finalize_empty
      { s with
          confusion_matrix := some (confusionMatrix [] [] cm.ids)
          target_labels := []
          predicted_labels := [] } cm hcm h2 rfl rfl⟩

/-- Witness for C9's amended statement at a concrete reset state. -/
theorem C9_witness :
    ∃ s₁ s₂, finalize sResetW = .ok (zeroResult, s₁) ∧
      finalize s₁ = .ok (zeroResult, s₂) :=
  C9_amended_finalize_twice sResetW cmW rfl (by decide) rfl rfl

/-- C7: a candidate whose IoU with a ground-truth box is exactly the
threshold τ is included in that ground-truth box's Match candidate list:
the matcher's boundary is inclusive. -/
theorem C7_iou_boundary_inclusive (target prediction : Record) (τ : ℚ)
    (m : TargetItem × List PredItem) (p : PredItem)
    (hm : m ∈ match_records target prediction τ)
    (hp : p ∈ predItems prediction)
    (hiou : iou m.1.target_bbox p.predicted_bbox = τ) :
    p ∈ m.2 := by
  obtain ⟨t, ht, rfl⟩ := List.mem_map.mp hm
  dsimp only at hiou ⊢
  refine List.mem_filter.mpr ⟨hp, ?_⟩
  simp [hiou]

/-- Witness for C7: with τ = 1 and coinciding unit boxes (IoU exactly 1),
the candidate is kept. -/
theorem C7_witness :
    ({ predicted_bbox := ⟨0, 0, 1, 1⟩, predicted_label_id := 1, score := 9 / 10 } :
        PredItem) ∈
      [({ predicted_bbox := ⟨0, 0, 1, 1⟩, predicted_label_id := 1, score := 9 / 10 } :
        PredItem)] := by
  have hiou : iou ⟨0, 0, 1, 1⟩ ⟨0, 0, 1, 1⟩ = 1 := by
    norm_num [iou, min_def, max_def]
  refine C7_iou_boundary_inclusive gtRecW prRecW 1
    (⟨⟨0, 0, 1, 1⟩, 1⟩, [⟨⟨0, 0, 1, 1⟩, 1, 9 / 10⟩]) ⟨⟨0, 0, 1, 1⟩, 1, 9 / 10⟩
    ?_ ?_ hiou
  · simp only [match_records, targetItems, predItems, gtRecW, prRecW, List.zip,
      List.zipWith, List.map, List.mem_singleton]
    rw [List.filter]
    simp only [hiou]
    norm_num
  · simp [predItems, prRecW, List.zip]

theorem foldl_bestStep_spec (x : PredItem) (xs : List PredItem) :
    ∃ l₁ l₂,
      x :: xs = l₁ ++ (xs.foldl bestStep x) :: l₂ ∧
      (∀ y ∈ l₁, y.score < (xs.foldl bestStep x).score) ∧
      (∀ y ∈ x :: xs, y.score ≤ (xs.foldl bestStep x).score) := by
  induction xs generalizing x with
  | nil =>
    refine ⟨[], [], rfl, by simp, ?_⟩
    intro y hy
    rw [List.mem_singleton.mp hy]
    exact le_refl _
  | cons y ys ih =>
    by_cases hxy : x.score < y.score
    · obtain ⟨l₁, l₂, heq, hlt, hle⟩ := ih y
      have hfold : (y :: ys).foldl bestStep x = ys.foldl bestStep y := by
        simp only [List.foldl, bestStep, if_pos hxy]
      rw [hfold]
      have hyr : y.score ≤ (ys.foldl bestStep y).score :=
        hle y (List.mem_cons_self y ys)
      refine ⟨x :: l₁, l₂, ?_, ?_, ?_⟩
      · rw [List.cons_append, ← heq]
      · intro z hz
        rcases List.mem_cons.mp hz with hz | hz
        · rw [hz]; exact lt_of_lt_of_le hxy hyr
        · exact hlt z hz
      · intro z hz
        rcases List.mem_cons.mp hz with hz | hz
        · rw [hz]; exact le_of_lt (lt_of_lt_of_le hxy hyr)
        · exact hle z hz
    · obtain ⟨l₁, l₂, heq, hlt, hle⟩ := ih x
      have hfold : (y :: ys).foldl bestStep x = ys.foldl bestStep x := by
        simp only [List.foldl, bestStep, if_neg hxy]
      rw [hfold]
      have hyx : y.score ≤ x.score := le_of_not_lt hxy
      have hxr : x.score ≤ (ys.foldl bestStep x).score :=
        hle x (List.mem_cons_self x ys)
      cases l₁ with
      | nil =>
        rw [List.nil_append] at heq
        have hx : x = ys.foldl bestStep x := (List.cons.injEq _ _ _ _).mp heq |>.1
        have hys : ys = l₂ := (List.cons.injEq _ _ _ _).mp heq |>.2
        refine ⟨[], y :: l₂, ?_, by simp, ?_⟩
        · rw [List.nil_append, ← hx, ← hys]
        · intro z hz
          rcases List.mem_cons.mp hz with hz | hz
          · rw [hz]; exact hxr
          · rcases List.mem_cons.mp hz with hz2 | hz2
            · rw [hz2]; exact le_trans hyx hxr
            · exact hle z (List.mem_cons_of_mem x hz2)
      | cons a t =>
        rw [List.cons_append] at heq
        have hx : x = a := (List.cons.injEq _ _ _ _).mp heq |>.1
        have hys : ys = t ++ ys.foldl bestStep x :: l₂ :=
          (List.cons.injEq _ _ _ _).mp heq |>.2
        have hxlt : x.score < (ys.foldl bestStep x).score := by
          have h := hlt a (List.mem_cons_self a t)
          rwa [← hx] at h
        refine ⟨x :: y :: t, l₂, ?_, ?_, ?_⟩
        · rw [List.cons_append, List.cons_append, ← hys]
        · intro z hz
          rcases List.mem_cons.mp hz with hz | hz
          · rw [hz]; exact hxlt
          · rcases List.mem_cons.mp hz with hz2 | hz2
            · rw [hz2]; exact lt_of_le_of_lt hyx hxlt
            · exact hlt z (List.mem_cons_of_mem a hz2)
        · intro z hz
          rcases List.mem_cons.mp hz with hz | hz
          · rw [hz]; exact hxr
          · rcases List.mem_cons.mp hz with hz2 | hz2
            · rw [hz2]; exact le_trans hyx hxr
            · exact hle z (List.mem_cons_of_mem x hz2)

/-- C8: under `BEST_SCORE`, for every non-empty candidate list the
selected item is one of the candidates, carries the maximal score, and is
the first-encountered candidate achieving that score (every candidate
before it scores strictly lower); the selection is a pure function. -/
theorem C8_best_score_selection (items : List PredItem) (hne : items ≠ []) :
    ∃ b, get_best_score_item items = some b ∧ b ∈ items ∧
      (∀ y ∈ items, y.score ≤ b.score) ∧
      ∃ l₁ l₂, items = l₁ ++ b :: l₂ ∧ ∀ y ∈ l₁, y.score < b.score := by
  cases items with
  | nil => exact absurd rfl hne
  | cons x xs =>
    obtain ⟨l₁, l₂, heq, hlt, hle⟩ := foldl_bestStep_spec x xs
    refine ⟨xs.foldl bestStep x, rfl, ?_, hle, l₁, l₂, heq, hlt⟩
    rw [heq]
    exact List.mem_append.mpr (Or.inr (List.mem_cons_self _ _))

/-- Witness for C8: two candidates tied on the top score 1/2. -/
theorem C8_witness :
    ∃ b, get_best_score_item itemsW = some b ∧ b ∈ itemsW ∧
      (∀ y ∈ itemsW, y.score ≤ b.score) ∧
      ∃ l₁ l₂, itemsW = l₁ ++ b :: l₂ ∧ ∀ y ∈ l₁, y.score < b.score :=
  C8_best_score_selection itemsW (by simp [itemsW])

/-- C10: in plot, a caller-supplied non-None `values_format` is discarded
and replaced (".2f" when normalize is set, "d" otherwise), while `None`
stays `None`: the caller never controls the actual format string. -/
theorem C10_plot_values_format (normalize values_format : Option String)
    (hnorm : normalize = none ∨ normalize = some "true" ∨ normalize = some "pred" ∨
      normalize = some "all") :
    (values_format ≠ none →
      plotValuesFormat normalize values_format =
        .ok (some (if normalize = none then "d" else ".2f"))) ∧
    plotValuesFormat normalize none = .ok none := by
  constructor
  · intro hvf
    rcases hnorm with h | h | h | h <;> subst h <;>
      simp [plotValuesFormat, pyTruthy, hvf]
  · rcases hnorm with h | h | h | h <;> subst h <;>
      simp [plotValuesFormat]

/-- Witness for C10: with normalize = "true", a supplied "raw" format is
replaced by ".2f", while a `None` format stays `None`. -/
theorem C10_witness :
    plotValuesFormat (some "true") (some "raw") = .ok (some ".2f") ∧
      plotValuesFormat (some "true") none = .ok none := by
  have h := C10_plot_values_format (some "true") (some "raw") (Or.inr (Or.inl rfl))
  exact ⟨by simpa using h.1 (by simp), h.2⟩

end IceVision
